import Mathlib

/-
  Verification of the splash-icon generator script.

  The script is embedded shallowly: exact rational arithmetic (ℚ) models the
  Python float arithmetic wherever the computation is rational, and real
  numbers (ℝ) model the two irrational power operations (exponents 0.7 and
  1.6).  Python `int(...)` is truncation toward zero, modelled by `pytrunc`;
  Python `//` on integers is floor division, modelled by `Int.fdiv`.
  Library operations that are not part of the repository (Gaussian blur and
  LANCZOS resampling from the image library) are taken as parameters of the
  pipeline, constrained only where a claim needs it (size preservation).
-/

namespace Springa

/-- Python `int(...)` applied to a rational: truncation toward zero. -/
def pytrunc (q : ℚ) : ℤ := if 0 ≤ q then ⌊q⌋ else ⌈q⌉

/-- An RGBA pixel; channels use the 0..255 scale of the script. -/
structure RGBA where
  r : ℚ
  g : ℚ
  b : ℚ
  a : ℚ
deriving DecidableEq

/-- One channel of `lerp_color`: `int(c1[i] + (c2[i] - c1[i]) * t)`. -/
def lerpChan (c1 c2 : ℤ) (t : ℚ) : ℤ := pytrunc ((c1 : ℚ) + ((c2 : ℚ) - c1) * t)

/-- The function `lerp_color` of the script, on RGB triples. -/
def lerpColor (c1 c2 : ℤ × ℤ × ℤ) (t : ℚ) : ℤ × ℤ × ℤ :=
  (lerpChan c1.1 c2.1 t, lerpChan c1.2.1 c2.2.1 t, lerpChan c1.2.2 c2.2.2 t)

/-- The five sky gradient stops `sky_stops` of `draw_retrowave`. -/
def skyStops : List (ℚ × (ℤ × ℤ × ℤ)) :=
  [(0, (13, 10, 26)), (35/100, (18, 12, 34)), (55/100, (28, 14, 55)),
   (75/100, (40, 15, 72)), (1, (52, 16, 88))]

/-- The bracketing loop of the sky gradient: find the first consecutive pair
of stops whose positions bracket `t` and interpolate between them. -/
def bracketColor (t : ℚ) : List (ℚ × (ℤ × ℤ × ℤ)) → Option (ℤ × ℤ × ℤ)
  | (p1, c1) :: (p2, c2) :: rest =>
      if p1 ≤ t ∧ t ≤ p2 then some (lerpColor c1 c2 ((t - p1) / (p2 - p1)))
      else bracketColor t ((p2, c2) :: rest)
  | _ => none

/-- The horizon row `horizon_y = int(size * 0.58)`. -/
def horizonY (size : ℕ) : ℤ := pytrunc ((size : ℚ) * (58/100))

/-- The color of row `y` of the base canvas after the sky loop (rows above
the horizon) and the floor loop (rows from the horizon down) have run.  Rows
the loops never draw keep the initial canvas color `(0, 0, 0, 255)`. -/
def baseRow (size : ℕ) (y : ℕ) : RGBA :=
  if (y : ℤ) < horizonY size then
    match bracketColor ((y : ℚ) / ((max (horizonY size) 1 : ℤ) : ℚ)) skyStops with
    | some c => ⟨c.1, c.2.1, c.2.2, 255⟩
    | none => ⟨0, 0, 0, 255⟩
  else
    let t : ℚ := ((y : ℚ) - (horizonY size : ℚ)) / ((max ((size : ℤ) - horizonY size) 1 : ℤ) : ℚ)
    let c := lerpColor (40, 12, 65) (13, 10, 26) (t * (6/10))
    ⟨c.1, c.2.1, c.2.2, 255⟩

/-- The brightness-to-alpha map of `extract_logo` on the 0..1 alpha scale
times 255: `np.clip((b - 70) / (150 - 70), 0, 1) ** 0.7 * 255`. -/
noncomputable def rampAlpha (b : ℝ) : ℝ :=
  (min (max ((b - 70) / (150 - 70)) 0) 1) ^ (0.7 : ℝ) * 255

/-- The per-pixel brightness of `extract_logo`: the maximum of the three
color channels. -/
def brightness (p : RGBA) : ℝ := max (p.r : ℝ) (max (p.g : ℝ) (p.b : ℝ))

/-- One pixel of `extract_logo` before resampling: original RGB, alpha
replaced by the brightness ramp (stored as a byte, hence the floor). -/
noncomputable def extractPx (p : RGBA) : RGBA :=
  ⟨p.r, p.g, p.b, ((⌊rampAlpha (brightness p)⌋ : ℤ) : ℚ)⟩

lemma pytrunc_eq_floor {q : ℚ} (h : 0 ≤ q) : pytrunc q = ⌊q⌋ := if_pos h

lemma rampAlpha_spec (b : ℝ) :
    rampAlpha b = (min 1 (max 0 ((b - 70) / (150 - 70)))) ^ (0.7 : ℝ) * 255 := by
  rw [rampAlpha, min_comm, max_comm]

lemma rampAlpha_low {b : ℝ} (h : b ≤ 70) : rampAlpha b = 0 := by
  have h1 : (b - 70) / (150 - 70) ≤ 0 := by
    apply div_nonpos_of_nonpos_of_nonneg <;> linarith
  rw [rampAlpha, max_eq_right h1, min_eq_left (by norm_num : (0:ℝ) ≤ 1),
    Real.zero_rpow (by norm_num : (0.7 : ℝ) ≠ 0), zero_mul]

lemma rampAlpha_high {b : ℝ} (h : 150 ≤ b) : rampAlpha b = 255 := by
  have h1 : (1 : ℝ) ≤ (b - 70) / (150 - 70) := by
    rw [le_div_iff₀ (by norm_num : (0:ℝ) < 150 - 70)]; linarith
  have h2 : (0 : ℝ) ≤ (b - 70) / (150 - 70) := by linarith
  rw [rampAlpha, max_eq_left h2, min_eq_right h1, Real.one_rpow, one_mul]

lemma rampAlpha_mid : rampAlpha 110 = 255 * ((1 : ℝ)/2) ^ (0.7 : ℝ) := by
  have h : ((110 : ℝ) - 70) / (150 - 70) = 1/2 := by norm_num
  rw [rampAlpha, h, max_eq_left (by norm_num : (0:ℝ) ≤ 1/2),
    min_eq_left (by norm_num : (1:ℝ)/2 ≤ 1), mul_comm]

lemma half_rpow_pow_ten : (((1 : ℝ)/2) ^ (0.7 : ℝ)) ^ (10 : ℕ) = 1 / 128 := by
  rw [← Real.rpow_natCast (((1 : ℝ)/2) ^ (0.7 : ℝ)) 10,
    ← Real.rpow_mul (by norm_num : (0:ℝ) ≤ 1/2)]
  rw [show (0.7 : ℝ) * ((10 : ℕ) : ℝ) = ((7 : ℕ) : ℝ) by norm_num]
  rw [Real.rpow_natCast]
  norm_num

lemma half_rpow_lb : (6138/10000 : ℝ) < ((1 : ℝ)/2) ^ (0.7 : ℝ) := by
  have hx0 : (0 : ℝ) ≤ ((1 : ℝ)/2) ^ (0.7 : ℝ) := Real.rpow_nonneg (by norm_num) _
  apply lt_of_pow_lt_pow_left₀ 10 hx0
  rw [half_rpow_pow_ten]
  norm_num

lemma half_rpow_ub : ((1 : ℝ)/2) ^ (0.7 : ℝ) < 617/1000 := by
  apply lt_of_pow_lt_pow_left₀ 10 (by norm_num : (0:ℝ) ≤ 617/1000)
  rw [half_rpow_pow_ten]
  norm_num

lemma half_rpow_ub_tight : ((1 : ℝ)/2) ^ (0.7 : ℝ) < 61565/100000 := by
  apply lt_of_pow_lt_pow_left₀ 10 (by norm_num : (0:ℝ) ≤ 61565/100000)
  rw [half_rpow_pow_ten]
  norm_num

/-- A square RGBA raster image: side length and a pixel function. -/
structure Img where
  size : ℕ
  px : ℕ → ℕ → RGBA

/-- A square RGB raster image (no alpha channel), the result of
`convert("RGB")`. -/
structure Img3 where
  size : ℕ
  px : ℕ → ℕ → ℚ × ℚ × ℚ

/-- The fully transparent pixel of a fresh layer. -/
def transparent : RGBA := ⟨0, 0, 0, 0⟩

/-- A straight line segment with a fill color, as passed to `draw.line`. -/
structure Line where
  p0 : ℤ × ℤ
  p1 : ℤ × ℤ
  color : RGBA

/-- A filled circle with a fill color, as passed to `draw.ellipse` with a
square bounding box. -/
structure Disk where
  cx : ℤ
  cy : ℤ
  rad : ℤ
  color : RGBA

/-- Rounding to the nearest integer, used by the segment rasterization
model. -/
def roundq (q : ℚ) : ℤ := ⌊q + 1/2⌋

/-- Modelled from the spec: the segment rasterization of the image library is
library code not part of the repository.  A horizontal segment covers the
pixels of its row between its endpoints; any other segment covers, for each
row it crosses, the pixel nearest to the interpolated crossing point.  No
claim depends on the exact pixel set of a non-horizontal segment. -/
def coversLine (l : Line) (x y : ℤ) : Bool :=
  if l.p0.2 = l.p1.2 then
    decide (y = l.p0.2 ∧ min l.p0.1 l.p1.1 ≤ x ∧ x ≤ max l.p0.1 l.p1.1)
  else
    decide (min l.p0.2 l.p1.2 ≤ y ∧ y ≤ max l.p0.2 l.p1.2 ∧
      x = roundq ((l.p0.1 : ℚ) + ((l.p1.1 : ℚ) - (l.p0.1 : ℚ)) *
        (((y : ℚ) - (l.p0.2 : ℚ)) / ((l.p1.2 : ℚ) - (l.p0.2 : ℚ)))))

/-- A transparent canvas with a list of segments drawn in order; a later
segment overwrites an earlier one where they overlap. -/
def rasterLines (size : ℕ) (lines : List Line) : Img :=
  ⟨size, fun x y =>
    (((lines.reverse.find? (fun l => coversLine l (x : ℤ) (y : ℤ))).map Line.color).getD
      transparent)⟩

/-- Whether a filled circle covers a pixel. -/
def coversDisk (d : Disk) (x y : ℤ) : Bool :=
  decide ((x - d.cx) ^ 2 + (y - d.cy) ^ 2 ≤ d.rad ^ 2)

/-- A transparent canvas with a list of filled circles drawn in order; a
later circle overwrites an earlier one where they overlap. -/
def rasterDisks (size : ℕ) (disks : List Disk) : Img :=
  ⟨size, fun x y =>
    (((disks.reverse.find? (fun d => coversDisk d (x : ℤ) (y : ℤ))).map Disk.color).getD
      transparent)⟩

/-- Source-over blending of a foreground pixel onto a background pixel on
the 0..255 scale, as in `Image.alpha_composite`. -/
def overPx (bgp fgp : RGBA) : RGBA :=
  let a : ℚ := fgp.a + bgp.a * (255 - fgp.a) / 255
  if a = 0 then transparent
  else
    ⟨(fgp.r * fgp.a + bgp.r * bgp.a * (255 - fgp.a) / 255) / a,
     (fgp.g * fgp.a + bgp.g * bgp.a * (255 - fgp.a) / 255) / a,
     (fgp.b * fgp.a + bgp.b * bgp.a * (255 - fgp.a) / 255) / a, a⟩

/-- `Image.alpha_composite(bg, fg)`; the library rejects images of
different sizes, hence the `Option`. -/
def alphaComposite (bg fg : Img) : Option Img :=
  if bg.size = fg.size then
    some ⟨bg.size, fun x y => overPx (bg.px x y) (fg.px x y)⟩
  else none

/-- A size-preserving image transform; the Gaussian blur of the image
library has this property. -/
def sizePreserving (f : ℕ → Img → Img) : Prop :=
  ∀ r img, (f r img).size = img.size

/-- The base canvas of `draw_retrowave`: sky and floor gradients, one full
row per scan line. -/
def baseCanvas (size : ℕ) : Img := ⟨size, fun _ y => baseRow size y⟩

/-- One horizontal grid line: index `i` of the `n_horiz = 20` loop. -/
noncomputable def gridHorizLine (size : ℕ) (i : ℕ) : Line :=
  let t : ℚ := (i : ℚ) / 20
  let y : ℤ := horizonY size + ⌊(((size : ℤ) - horizonY size : ℤ) : ℝ) * ((i : ℝ) / 20) ^ (1.6 : ℝ)⌋
  ⟨(0, y), ((size : ℤ), y), ⟨255, 45, 149, ((pytrunc (25 + 55 * t) : ℤ) : ℚ)⟩⟩

/-- The 20 horizontal grid lines. -/
noncomputable def gridHorizLines (size : ℕ) : List Line :=
  (List.range 20).map (gridHorizLine size)

/-- One vertical grid line: index `i` of the `n_vert = 17` loop, running
from the vanishing point `(size // 2, horizon_y)` to the bottom endpoint. -/
def gridVertLine (size : ℕ) (i : ℕ) : Line :=
  let frac : ℚ := (i : ℚ) / 16
  let xBottom : ℤ := pytrunc (((size / 2 : ℕ) : ℚ) + (frac - 1/2) * (size : ℚ) * (22/10))
  ⟨(((size / 2 : ℕ) : ℤ), horizonY size), (xBottom, (size : ℤ)),
   ⟨255, 45, 149, ((pytrunc (25 + 30 * (1 - |frac - 1/2| * 2)) : ℤ) : ℚ)⟩⟩

/-- The 17 vertical grid lines. -/
def gridVertLines (size : ℕ) : List Line :=
  (List.range 17).map (gridVertLine size)

/-- The grid overlay layer: horizontal lines drawn first, then vertical
lines, on a transparent canvas. -/
noncomputable def gridLayer (size : ℕ) : Img :=
  rasterLines size (gridHorizLines size ++ gridVertLines size)

/-- The margin of the horizon glow, `int(size * 0.05)`. -/
def glowMargin (size : ℕ) : ℤ := pytrunc ((size : ℚ) * (5/100))

/-- One line of the horizon glow band at vertical offset `o`. -/
def glowLine (size : ℕ) (o : ℤ) : Line :=
  ⟨(glowMargin size, horizonY size + o), ((size : ℤ) - glowMargin size, horizonY size + o),
   ⟨255, 45, 149, ((max 0 (140 - |o| * 35) : ℤ) : ℚ)⟩⟩

/-- The offsets `range(-4, 5)` of the horizon glow band. -/
def glowOffsets : List ℤ := [-4, -3, -2, -1, 0, 1, 2, 3, 4]

/-- The nine lines of the horizon glow band. -/
def horizonGlowLines (size : ℕ) : List Line := glowOffsets.map (glowLine size)

/-- The horizon glow layer before blurring. -/
def horizonGlowLayer (size : ℕ) : Img := rasterLines size (horizonGlowLines size)

/-- The x coordinate of the radial glow center, `size // 2`. -/
def glowCx (size : ℕ) : ℕ := size / 2

/-- The shared vertical center `int(size * 0.40)` of the radial glow and
of the pasted logo. -/
def centerY (size : ℕ) : ℤ := pytrunc ((size : ℚ) * (40/100))

/-- The radial glow radius `int(size * 0.35)`. -/
def glowRadius (size : ℕ) : ℤ := pytrunc ((size : ℚ) * (35/100))

/-- Ring indices: `range(radius, 0, -2)` visits `(radius + 1) / 2` radii. -/
def ringCount (size : ℕ) : ℕ := ((glowRadius size).toNat + 1) / 2

/-- The `j`-th concentric circle of the radial glow, at radius
`radius - 2 * j`. -/
def glowDisk (size : ℕ) (j : ℕ) : Disk :=
  let r : ℤ := glowRadius size - 2 * (j : ℤ)
  let t : ℚ := (r : ℚ) / (glowRadius size : ℚ)
  let c := lerpColor (255, 45, 149) (180, 50, 200) t
  ⟨(glowCx size : ℤ), centerY size, r,
   ⟨(c.1 : ℚ), (c.2.1 : ℚ), (c.2.2 : ℚ), ((pytrunc (40 * (1 - t) ^ 2) : ℤ) : ℚ)⟩⟩

/-- The list of concentric circles of the radial glow, outermost first. -/
def glowDisks (size : ℕ) : List Disk :=
  (List.range (ringCount size)).map (glowDisk size)

/-- The radial glow layer before blurring. -/
def radialGlowLayer (size : ℕ) : Img := rasterDisks size (glowDisks size)

/-- `draw_retrowave`: base gradients, then the grid overlay, the blurred
horizon glow and the blurred radial glow, each alpha-composited on top.
`blur` abstracts the Gaussian blur of the library (radius, image). -/
noncomputable def drawRetrowave (blur : ℕ → Img → Img) (size : ℕ) : Option Img := do
  let img1 ← alphaComposite (baseCanvas size) (gridLayer size)
  let img2 ← alphaComposite img1 (blur (max 2 (size / 120)) (horizonGlowLayer size))
  let img3 ← alphaComposite img2 (blur (max 3 (size / 80)) (radialGlowLayer size))
  pure img3

/-- `extract_logo`: replace the alpha channel of the source image by the
brightness ramp, then resample to the target size.  `resample` abstracts
the LANCZOS resize of the library (target size, image). -/
noncomputable def extractLogo (resample : ℕ → Img → Img) (src : Img) (target : ℕ) : Img :=
  resample target ⟨src.size, fun x y => extractPx (src.px x y)⟩

/-- The alpha boost of the logo glow:
`np.clip(alpha * 1.5, 0, 255)`, stored back as a byte. -/
def boostAlpha (img : Img) : Img :=
  ⟨img.size, fun x y =>
    let p := img.px x y
    ⟨p.r, p.g, p.b, ((pytrunc (min (max (p.a * (3/2)) 0) 255) : ℤ) : ℚ)⟩⟩

/-- `paste_at`: a transparent canvas of the given size with the layer
pasted at the given position, using the layer itself as the paste mask. -/
def pasteAt (layer : Img) (posx posy : ℤ) (size : ℕ) : Img :=
  ⟨size, fun x y =>
    let lx : ℤ := (x : ℤ) - posx
    let ly : ℤ := (y : ℤ) - posy
    if 0 ≤ lx ∧ 0 ≤ ly ∧ lx < (layer.size : ℤ) ∧ ly < (layer.size : ℤ) then
      let p := layer.px lx.toNat ly.toNat
      let m : ℚ := p.a / 255
      ⟨p.r * m, p.g * m, p.b * m, p.a * m⟩
    else transparent⟩

/-- The logo scale factor: `0.55 if maskable else 0.65`. -/
def logoScale (maskable : Bool) : ℚ := if maskable then 55/100 else 65/100

/-- The logo pixel size `logo_px = int(size * logo_scale)`. -/
def logoPx (size : ℕ) (maskable : Bool) : ℤ :=
  pytrunc ((size : ℚ) * logoScale maskable)

/-- The horizontal paste offset `x = (size - logo_px) // 2`. -/
def pasteX (size : ℕ) (maskable : Bool) : ℤ :=
  ((size : ℤ) - logoPx size maskable).fdiv 2

/-- The vertical paste offset `y = int(size * 0.40) - logo_px // 2`. -/
def pasteY (size : ℕ) (maskable : Bool) : ℤ :=
  centerY size - (logoPx size maskable).fdiv 2

/-- The extracted logo of `create_icon`, at `logo_px = int(size * scale)`
pixels. -/
noncomputable def logoOf (resample : ℕ → Img → Img) (src : Img)
    (size : ℕ) (maskable : Bool) : Img :=
  extractLogo resample src (logoPx size maskable).toNat

/-- The sharp logo layer: the logo pasted at `(x, y)` on a transparent
canvas of the icon size. -/
noncomputable def logoLayerOf (resample : ℕ → Img → Img) (src : Img)
    (size : ℕ) (maskable : Bool) : Img :=
  pasteAt (logoOf resample src size maskable) (pasteX size maskable) (pasteY size maskable) size

/-- The glow layer: the blurred, alpha-boosted logo pasted at the same
`(x, y)`. -/
noncomputable def glowLayerOf (blur resample : ℕ → Img → Img) (src : Img)
    (size : ℕ) (maskable : Bool) : Img :=
  pasteAt (boostAlpha (blur (max 2 (size / 100)) (logoOf resample src size maskable)))
    (pasteX size maskable) (pasteY size maskable) size

/-- `convert("RGB")`: drop the alpha channel. -/
def toRGB (img : Img) : Img3 :=
  ⟨img.size, fun x y => ((img.px x y).r, (img.px x y).g, (img.px x y).b)⟩

/-- `create_icon`: the background, the blurred alpha-boosted logo glow and
the sharp logo composited in order, flattened to RGB. -/
noncomputable def createIcon (blur resample : ℕ → Img → Img) (src : Img)
    (size : ℕ) (maskable : Bool) : Option Img3 := do
  let bg ← drawRetrowave blur size
  let bg1 ← alphaComposite bg (glowLayerOf blur resample src size maskable)
  let bg2 ← alphaComposite bg1 (logoLayerOf resample src size maskable)
  pure (toRGB bg2)

/-- The output file name, `icon-<size>.png` or `icon-<size>-maskable.png`. -/
def iconName (size : ℕ) (maskable : Bool) : String :=
  "icon-" ++ toString size ++ (if maskable then "-maskable" else "") ++ ".png"

/-- The iteration order of the driver: two sizes, normal variant then maskable. -/
def iconSpecs : List (ℕ × Bool) := [(192, false), (192, true), (512, false), (512, true)]

/-- One driver step: read the source image (absent when `none`) and build
one icon. -/
noncomputable def createIconAt (blur resample : ℕ → Img → Img) (src : Option Img)
    (size : ℕ) (maskable : Bool) : Option Img3 :=
  src.bind (fun s => createIcon blur resample s size maskable)

/-- The driver loop: for each requested icon in order, build it and write
it out; a failure aborts the run, keeping the files already written (first
component) and reporting the error (second component). -/
noncomputable def runSpecs (blur resample : ℕ → Img → Img) (src : Option Img) :
    List (ℕ × Bool) → List (String × Img3) × Option Unit
  | [] => ([], none)
  | (n, m) :: rest =>
    match createIconAt blur resample src n m with
    | none => ([], some ())
    | some icon =>
      let out := runSpecs blur resample src rest
      ((iconName n m, icon) :: out.1, out.2)

/-- `main`: generate the four icons. -/
noncomputable def mainRun (blur resample : ℕ → Img → Img) (src : Option Img) :
    List (String × Img3) × Option Unit :=
  runSpecs blur resample src iconSpecs

lemma baseRow_alpha (size y : ℕ) : (baseRow size y).a = 255 := by
  rw [baseRow]
  split
  · split <;> rfl
  · rfl

lemma overPx_alpha {p : RGBA} (q : RGBA) (h : p.a = 255) : (overPx p q).a = 255 := by
  rw [overPx, h]
  have ha : q.a + 255 * (255 - q.a) / 255 = 255 := by ring
  rw [ha, if_neg (by norm_num)]

lemma alphaComposite_eq (bg fg : Img) (h : bg.size = fg.size) :
    alphaComposite bg fg = some ⟨bg.size, fun x y => overPx (bg.px x y) (fg.px x y)⟩ := by
  rw [alphaComposite, if_pos h]

/-- The background pipeline succeeds whenever the blur is size preserving,
yields a canvas of the requested size, and that canvas is fully opaque. -/
lemma drawRetrowave_spec (blur : ℕ → Img → Img) (hb : sizePreserving blur) (size : ℕ) :
    ∃ img, drawRetrowave blur size = some img ∧ img.size = size ∧
      ∀ x y : ℕ, (img.px x y).a = 255 := by
  have h1 : alphaComposite (baseCanvas size) (gridLayer size) =
      some ⟨size, fun x y => overPx ((baseCanvas size).px x y) ((gridLayer size).px x y)⟩ :=
    alphaComposite_eq _ _ rfl
  set img1 : Img :=
    ⟨size, fun x y => overPx ((baseCanvas size).px x y) ((gridLayer size).px x y)⟩ with himg1
  have ha1 : ∀ x y : ℕ, (img1.px x y).a = 255 := fun x y =>
    overPx_alpha _ (baseRow_alpha size y)
  have h2 : alphaComposite img1 (blur (max 2 (size / 120)) (horizonGlowLayer size)) =
      some ⟨size, fun x y =>
        overPx (img1.px x y) ((blur (max 2 (size / 120)) (horizonGlowLayer size)).px x y)⟩ :=
    alphaComposite_eq _ _ (by rw [hb]; rfl)
  set img2 : Img :=
    ⟨size, fun x y =>
      overPx (img1.px x y) ((blur (max 2 (size / 120)) (horizonGlowLayer size)).px x y)⟩
    with himg2
  have ha2 : ∀ x y : ℕ, (img2.px x y).a = 255 := fun x y => overPx_alpha _ (ha1 x y)
  have h3 : alphaComposite img2 (blur (max 3 (size / 80)) (radialGlowLayer size)) =
      some ⟨size, fun x y =>
        overPx (img2.px x y) ((blur (max 3 (size / 80)) (radialGlowLayer size)).px x y)⟩ :=
    alphaComposite_eq _ _ (by rw [hb]; rfl)
  refine ⟨⟨size, fun x y =>
      overPx (img2.px x y) ((blur (max 3 (size / 80)) (radialGlowLayer size)).px x y)⟩,
    ?_, rfl, fun x y => overPx_alpha _ (ha2 x y)⟩
  simp [drawRetrowave, h1, h2, h3]

/-- The composer succeeds whenever the blur is size preserving and yields
an RGB image of the requested size. -/
lemma createIcon_spec (blur resample : ℕ → Img → Img) (hb : sizePreserving blur)
    (src : Img) (size : ℕ) (maskable : Bool) :
    ∃ out, createIcon blur resample src size maskable = some out ∧ out.size = size := by
  obtain ⟨bg, hbg, hsz, _⟩ := drawRetrowave_spec blur hb size
  have h1 : alphaComposite bg (glowLayerOf blur resample src size maskable) =
      some ⟨bg.size, fun x y =>
        overPx (bg.px x y) ((glowLayerOf blur resample src size maskable).px x y)⟩ :=
    alphaComposite_eq _ _ (by rw [hsz]; rfl)
  set bg1 : Img :=
    ⟨bg.size, fun x y =>
      overPx (bg.px x y) ((glowLayerOf blur resample src size maskable).px x y)⟩ with hbg1
  have h2 : alphaComposite bg1 (logoLayerOf resample src size maskable) =
      some ⟨bg1.size, fun x y =>
        overPx (bg1.px x y) ((logoLayerOf resample src size maskable).px x y)⟩ :=
    alphaComposite_eq _ _ (by show bg.size = size; exact hsz)
  refine ⟨toRGB ⟨bg1.size, fun x y =>
      overPx (bg1.px x y) ((logoLayerOf resample src size maskable).px x y)⟩, ?_, hsz⟩
  simp [createIcon, hbg, h1, h2, toRGB]

/-- C1.  The general ramp shape stated by the claim is exactly what the code
computes, but the claimed midpoint value is wrong: `255 × 0.5^0.7` is strictly above 156, so
it is not `≈ 155` within rounding (it is `≈ 157`, stored as 156). -/
theorem C1_counterexample :
    rampAlpha 110 = 255 * ((1 : ℝ)/2) ^ (0.7 : ℝ) ∧ 156 < rampAlpha 110 := by
  refine ⟨rampAlpha_mid, ?_⟩
  rw [rampAlpha_mid]
  nlinarith [half_rpow_lb]

/-- C1 (amended).  For every input pixel the extractor keeps the RGB
channels and replaces alpha by the ramp of the brightness, the brightness
is the maximum of the three channels, the ramp is the clamped linear ramp
between 70 and 150 raised to the power 0.7 and scaled to [0,255],
brightness ≤ 70 yields 0, brightness ≥ 150 yields 255, and brightness 110
yields `255 × 0.5^0.7 ≈ 157` within rounding, stored as the byte 156 after
truncation. -/
theorem C1_thm :
    (∀ p : RGBA, extractPx p = ⟨p.r, p.g, p.b, ((⌊rampAlpha (brightness p)⌋ : ℤ) : ℚ)⟩) ∧
    (∀ p : RGBA, brightness p = max (p.r : ℝ) (max (p.g : ℝ) (p.b : ℝ))) ∧
    (∀ b : ℝ, rampAlpha b = (min 1 (max 0 ((b - 70) / (150 - 70)))) ^ (0.7 : ℝ) * 255) ∧
    (∀ b : ℝ, b ≤ 70 → rampAlpha b = 0) ∧
    (∀ b : ℝ, 150 ≤ b → rampAlpha b = 255) ∧
    rampAlpha 110 = 255 * ((1 : ℝ)/2) ^ (0.7 : ℝ) ∧
    |rampAlpha 110 - 157| < 1/2 ∧
    ⌊rampAlpha 110⌋ = 156 := by
  refine ⟨fun p => rfl, fun p => rfl, rampAlpha_spec, fun b => rampAlpha_low,
    fun b => rampAlpha_high, rampAlpha_mid, ?_, ?_⟩
  · rw [rampAlpha_mid, abs_lt]
    constructor <;> nlinarith [half_rpow_lb, half_rpow_ub]
  · rw [rampAlpha_mid, Int.floor_eq_iff]
    constructor
    · push_cast
      nlinarith [half_rpow_lb]
    · push_cast
      nlinarith [half_rpow_ub_tight]

/-- C1 witness: the endpoints of the ramp at concrete brightness values. -/
theorem C1_witness : rampAlpha 70 = 0 ∧ rampAlpha 150 = 255 :=
  ⟨C1_thm.2.2.2.1 70 le_rfl, C1_thm.2.2.2.2.1 150 le_rfl⟩

/-- C2.  For every positive size and every size-preserving blur, the
background renderer succeeds and returns a square canvas of exactly the
requested size whose alpha channel is 255 at every pixel. -/
theorem C2_thm : ∀ (size : ℕ) (blur : ℕ → Img → Img), 0 < size → sizePreserving blur →
    ∃ img, drawRetrowave blur size = some img ∧ img.size = size ∧
      ∀ x y : ℕ, x < size → y < size → (img.px x y).a = 255 := by
  intro size blur _ hb
  obtain ⟨img, h1, h2, h3⟩ := drawRetrowave_spec blur hb size
  exact ⟨img, h1, h2, fun x y _ _ => h3 x y⟩

/-- C2 witness: the renderer at size 3 with the identity in place of the
blur. -/
theorem C2_witness :
    (drawRetrowave (fun _ i => i) 3).map Img.size = some 3 ∧
    (drawRetrowave (fun _ i => i) 3).map (fun i => (i.px 0 0).a) = some 255 := by
  obtain ⟨img, h1, h2, h3⟩ := C2_thm 3 (fun _ i => i) (by norm_num) (fun _ _ => rfl)
  rw [h1, Option.map_some', Option.map_some', h2, h3 0 0 (by norm_num) (by norm_num)]
  exact ⟨rfl, rfl⟩

/-- C3 (amended).  For every size of at least 2 the horizon row index is
`floor(0.58 * size)` and the sky gradient fills row 0 of the base canvas
with the first sky gradient stop color (13, 10, 26).  This is a statement
about the base gradient only: the glow layers composited on top can
recolor row 0 (see the counterexample at size 2). -/
theorem C3_thm : ∀ size : ℕ, 2 ≤ size →
    horizonY size = ⌊(58/100 : ℚ) * (size : ℚ)⌋ ∧ baseRow size 0 = ⟨13, 10, 26, 255⟩ := by
  intro size hsize
  have hcast : (2 : ℚ) ≤ (size : ℚ) := by exact_mod_cast hsize
  have h1 : horizonY size = ⌊(58/100 : ℚ) * (size : ℚ)⌋ := by
    rw [horizonY, pytrunc_eq_floor (by positivity), mul_comm]
  have hh : 1 ≤ horizonY size := by
    rw [h1, Int.le_floor]
    push_cast
    linarith
  refine ⟨h1, ?_⟩
  rw [baseRow, if_pos (by exact_mod_cast hh)]
  norm_num [bracketColor, skyStops, lerpColor, lerpChan, pytrunc]

/-- C3 witness: the horizon row and the top row color at size 2. -/
theorem C3_witness :
    horizonY 2 = ⌊(58/100 : ℚ) * ((2 : ℕ) : ℚ)⌋ ∧ baseRow 2 0 = ⟨13, 10, 26, 255⟩ :=
  C3_thm 2 le_rfl

lemma horizonY_le (size : ℕ) : horizonY size ≤ (size : ℤ) := by
  rw [horizonY, pytrunc_eq_floor (by positivity)]
  calc ⌊(size : ℚ) * (58/100)⌋ ≤ ⌊(size : ℚ)⌋ :=
        Int.floor_le_floor (by nlinarith [Nat.cast_nonneg (α := ℚ) size])
    _ = (size : ℤ) := Int.floor_natCast size

lemma gridHorizLine_row_ge (size i : ℕ) (h : 1 ≤ horizonY size) :
    1 ≤ (gridHorizLine size i).p0.2 := by
  have hnn : (0:ℝ) ≤ (((size : ℤ) - horizonY size : ℤ) : ℝ) * ((i : ℝ) / 20) ^ (1.6 : ℝ) := by
    apply mul_nonneg
    · have := horizonY_le size
      exact_mod_cast sub_nonneg.mpr this
    · exact Real.rpow_nonneg (by positivity) _
  have h2 := Int.floor_nonneg.mpr hnn
  show 1 ≤ horizonY size + _
  omega

/-- At size 2 no grid line reaches the origin: horizontal lines lie at rows
at or below the horizon (row 1), vertical lines run from the horizon down. -/
lemma gridLayer_two_origin : (gridLayer 2).px 0 0 = transparent := by
  have hhor : horizonY 2 = 1 := by norm_num [horizonY, pytrunc]
  have hnone : ((gridHorizLines 2 ++ gridVertLines 2).reverse).find?
      (fun l => coversLine l (((0 : ℕ)) : ℤ) (((0 : ℕ)) : ℤ)) = none := by
    rw [List.find?_eq_none]
    intro l hl
    rw [List.mem_reverse, List.mem_append] at hl
    rcases hl with hl | hl
    · rw [gridHorizLines, List.mem_map] at hl
      obtain ⟨i, _, rfl⟩ := hl
      have hge := gridHorizLine_row_ge 2 i (by rw [hhor])
      have e0 : (gridHorizLine 2 i).p0.2 = (gridHorizLine 2 i).p1.2 := rfl
      simp only [coversLine, if_pos e0, decide_eq_true_eq, Bool.and_eq_true, not_and,
        decide_eq_true_eq]
      intro h1
      omega
    · rw [gridVertLines, List.mem_map] at hl
      obtain ⟨i, _, rfl⟩ := hl
      have e0 : (gridVertLine 2 i).p0.2 = horizonY 2 := rfl
      have e1 : (gridVertLine 2 i).p1.2 = ((2 : ℕ) : ℤ) := rfl
      simp only [coversLine, e0, e1, hhor]
      norm_num
  simp only [gridLayer, rasterLines]
  rw [hnone]
  rfl

/-- At size 2 the glow line at offset -1 lies on row 0 and spans the whole
row (the margin `int(2 * 0.05)` is 0), so the glow layer holds pink with
alpha 105 at the origin before blurring. -/
lemma horizonGlowLayer_two_origin : (horizonGlowLayer 2).px 0 0 = ⟨255, 45, 149, 105⟩ := by
  have hm : glowMargin 2 = 0 := by norm_num [glowMargin, pytrunc]
  have hhor : horizonY 2 = 1 := by norm_num [horizonY, pytrunc]
  simp only [horizonGlowLayer, rasterLines, horizonGlowLines, glowOffsets, List.map_cons,
    List.map_nil, hm, hhor]
  norm_num [coversLine, List.find?, glowLine, hm, hhor]

/-- At size 2 the radial glow radius `int(2 * 0.35)` is 0, so no circle is
drawn. -/
lemma radialGlowLayer_two_origin : (radialGlowLayer 2).px 0 0 = transparent := by
  have hrad : glowRadius 2 = 0 := by norm_num [glowRadius, pytrunc]
  simp [radialGlowLayer, rasterDisks, glowDisks, ringCount, hrad]

/-- C3 counterexample.  At size 1 the horizon row index is 0, so row 0 is
drawn by the floor loop and carries (40, 12, 65), not the first sky stop
color.  Moreover the row-0 statement is true only of the base gradient,
not of the renderer output: at size 2 the base canvas row 0 is
(13, 10, 26), but the horizon glow (margin 0, offset -1 line on row 0) is
composited over it, and the renderer output at the origin is the pink
blend (1915/17, 415/17, 1303/17) (shown with the identity in place of the
blur). -/
theorem C3_counterexample :
    (horizonY 1 = 0 ∧ baseRow 1 0 = ⟨40, 12, 65, 255⟩ ∧
      (⟨40, 12, 65, 255⟩ : RGBA) ≠ ⟨13, 10, 26, 255⟩) ∧
    (baseRow 2 0 = ⟨13, 10, 26, 255⟩ ∧
      (drawRetrowave (fun _ i => i) 2).map (fun img => img.px 0 0) =
        some ⟨1915/17, 415/17, 1303/17, 255⟩ ∧
      (⟨1915/17, 415/17, 1303/17, 255⟩ : RGBA) ≠ ⟨13, 10, 26, 255⟩) := by
  refine ⟨⟨by norm_num [horizonY, pytrunc], ?_, ?_⟩, ⟨?_, ?_, ?_⟩⟩
  · norm_num [baseRow, horizonY, pytrunc, lerpColor, lerpChan]
  · intro h
    have := congrArg RGBA.r h
    norm_num at this
  · norm_num [baseRow, horizonY, pytrunc, bracketColor, skyStops, lerpColor, lerpChan]
  · have h1 : alphaComposite (baseCanvas 2) (gridLayer 2) =
        some ⟨2, fun x y => overPx ((baseCanvas 2).px x y) ((gridLayer 2).px x y)⟩ :=
      alphaComposite_eq _ _ rfl
    set img1 : Img := ⟨2, fun x y => overPx ((baseCanvas 2).px x y) ((gridLayer 2).px x y)⟩
      with himg1
    have h2 : alphaComposite img1 (horizonGlowLayer 2) =
        some ⟨2, fun x y => overPx (img1.px x y) ((horizonGlowLayer 2).px x y)⟩ :=
      alphaComposite_eq _ _ rfl
    set img2 : Img := ⟨2, fun x y => overPx (img1.px x y) ((horizonGlowLayer 2).px x y)⟩
      with himg2
    have h3 : alphaComposite img2 (radialGlowLayer 2) =
        some ⟨2, fun x y => overPx (img2.px x y) ((radialGlowLayer 2).px x y)⟩ :=
      alphaComposite_eq _ _ rfl
    have hb : (baseCanvas 2).px 0 0 = ⟨13, 10, 26, 255⟩ := by
      norm_num [baseCanvas, baseRow, horizonY, pytrunc, bracketColor, skyStops, lerpColor,
        lerpChan]
    simp only [drawRetrowave, h1, Option.some_bind, h2, h3]
    show Option.map _ (some _) = _
    rw [Option.map_some']
    show some (overPx (overPx (overPx ((baseCanvas 2).px 0 0) ((gridLayer 2).px 0 0))
      ((horizonGlowLayer 2).px 0 0)) ((radialGlowLayer 2).px 0 0)) = _
    rw [hb, gridLayer_two_origin, horizonGlowLayer_two_origin, radialGlowLayer_two_origin]
    norm_num [overPx, transparent]
  · intro h
    have := congrArg RGBA.r h
    norm_num at this

/-- C4 counterexample: the unfloored formulas of the claim disagree with the
code.  At size 5, vertical line 16 ends at x = 7 while the claimed
`size/2 + ((i/16) - 0.5) * size * 2.2` equals 8 exactly; horizontal line 1
has alpha 27 while the claimed `25 + 55 * (i/20)` equals 27.75; vertical
line 1 has alpha 28 while the claimed `25 + 30 * (1 - 2|i/16 - 0.5|)`
equals 28.75. -/
theorem C4_counterexample :
    ((gridVertLine 5 16).p1.1 = 7 ∧ (5 : ℚ)/2 + ((16 : ℚ)/16 - 1/2) * 5 * (22/10) = 8 ∧
      (7 : ℚ) ≠ 8) ∧
    ((gridHorizLine 5 1).color.a = 27 ∧ (25 : ℚ) + 55 * ((1 : ℚ)/20) = 111/4 ∧
      (27 : ℚ) ≠ 111/4) ∧
    ((gridVertLine 5 1).color.a = 28 ∧ (25 : ℚ) + 30 * (1 - 2 * |(1 : ℚ)/16 - 1/2|) = 115/4 ∧
      (28 : ℚ) ≠ 115/4) := by
  refine ⟨⟨?_, by norm_num, by norm_num⟩, ⟨?_, by norm_num, by norm_num⟩, ⟨?_, ?_, by norm_num⟩⟩
  · norm_num [gridVertLine, pytrunc]
  · norm_num [gridHorizLine, pytrunc]
  · norm_num [gridVertLine, pytrunc, abs_of_nonneg (show (0:ℚ) ≤ 7/16 by norm_num)]
  · norm_num [abs_of_nonneg (show (0:ℚ) ≤ 7/16 by norm_num),
      abs_of_nonpos (show (1:ℚ)/16 - 1/2 ≤ 0 by norm_num)]

/-- C4 (amended).  The grid overlay has exactly 20 horizontal and 17
vertical lines; horizontal line `i` sits at row
`horizon + floor(floor_height * (i/20)^1.6)` in pink with alpha
`int(25 + 55 * (i/20))`; vertical line `i` runs from the vanishing point
`(size // 2, horizon)` to `x = int(size // 2 + ((i/16) - 0.5) * size * 2.2)`
at `y = size`, with alpha `int(25 + 30 * (1 - 2|i/16 - 0.5|))`. -/
theorem C4_thm : ∀ size : ℕ,
    (gridHorizLines size).length = 20 ∧
    (gridVertLines size).length = 17 ∧
    (∀ i : ℕ, i < 20 →
      gridHorizLine size i =
        ⟨(0, horizonY size +
            ⌊(((size : ℤ) - horizonY size : ℤ) : ℝ) * ((i : ℝ) / 20) ^ (1.6 : ℝ)⌋),
         ((size : ℤ), horizonY size +
            ⌊(((size : ℤ) - horizonY size : ℤ) : ℝ) * ((i : ℝ) / 20) ^ (1.6 : ℝ)⌋),
         ⟨255, 45, 149, ((⌊(25 : ℚ) + 55 * ((i : ℚ) / 20)⌋ : ℤ) : ℚ)⟩⟩) ∧
    (∀ i : ℕ, i < 17 →
      gridVertLine size i =
        ⟨(((size / 2 : ℕ) : ℤ), horizonY size),
         (pytrunc (((size / 2 : ℕ) : ℚ) + ((i : ℚ) / 16 - 1/2) * (size : ℚ) * (22/10)),
          (size : ℤ)),
         ⟨255, 45, 149, ((⌊(25 : ℚ) + 30 * (1 - 2 * |(i : ℚ) / 16 - 1/2|)⌋ : ℤ) : ℚ)⟩⟩) := by
  intro size
  refine ⟨by simp [gridHorizLines], by simp [gridVertLines], fun i hi => ?_, fun i hi => ?_⟩
  · have hnn : (0 : ℚ) ≤ 25 + 55 * ((i : ℚ) / 20) := by positivity
    simp only [gridHorizLine]
    rw [pytrunc_eq_floor hnn]
  · have hi16 : (i : ℚ) ≤ 16 := by exact_mod_cast Nat.lt_succ_iff.mp hi
    have h0 : (0 : ℚ) ≤ (i : ℚ) / 16 := by positivity
    have h1 : (i : ℚ) / 16 ≤ 1 := by
      rw [div_le_one (by norm_num : (0:ℚ) < 16)]; exact hi16
    have habs : |(i : ℚ) / 16 - 1/2| ≤ 1/2 := by
      rw [abs_le]; constructor <;> linarith
    have hnn : (0 : ℚ) ≤ 25 + 30 * (1 - |(i : ℚ) / 16 - 1/2| * 2) := by linarith
    simp only [gridVertLine]
    rw [pytrunc_eq_floor hnn, mul_comm |(i : ℚ) / 16 - 1/2| 2]

/-- C4 witness: the grid line counts and formulas at size 5. -/
theorem C4_witness :
    (gridHorizLines 5).length = 20 ∧ (gridVertLines 5).length = 17 ∧
    (gridHorizLine 5 1).color =
      ⟨255, 45, 149, ((⌊(25 : ℚ) + 55 * (((1 : ℕ) : ℚ) / 20)⌋ : ℤ) : ℚ)⟩ ∧
    (gridVertLine 5 16).p1 =
      (pytrunc (((5 / 2 : ℕ) : ℚ) + (((16 : ℕ) : ℚ) / 16 - 1/2) * ((5 : ℕ) : ℚ) * (22/10)),
       ((5 : ℕ) : ℤ)) := by
  obtain ⟨h1, h2, h3, h4⟩ := C4_thm 5
  exact ⟨h1, h2, congrArg Line.color (h3 1 (by norm_num)),
    congrArg Line.p1 (h4 16 (by norm_num))⟩

lemma fdiv_two_floor (a : ℤ) : a.fdiv 2 = ⌊(a : ℚ) / 2⌋ := by
  rw [show ((2:ℚ)) = ((2:ℕ) : ℚ) by norm_num, Rat.floor_intCast_div_natCast a 2,
    Int.fdiv_eq_ediv _ (by norm_num)]
  norm_num

lemma glowRadius_nonneg (size : ℕ) : 0 ≤ glowRadius size := by
  rw [glowRadius, pytrunc_eq_floor (by positivity)]
  exact Int.floor_nonneg.mpr (by positivity)

/-- C5 counterexample: the unfloored formulas of the claim disagree with the
code.  At size 10 the radius is 3, not `0.35 × 10 = 3.5`; at size 5 the
center x is 2, not `5/2`; at size 3 the center y is 1, not `0.40 × 3`;
and at size 10 the ring at radius 1 has alpha 17, not `40(1 - 1/3)^2 =
160/9 ≈ 17.78`. -/
theorem C5_counterexample :
    (glowRadius 10 = 3 ∧ (35/100 : ℚ) * 10 = 7/2 ∧ (3 : ℚ) ≠ 7/2) ∧
    (glowCx 5 = 2 ∧ (2 : ℚ) ≠ 5/2) ∧
    (centerY 3 = 1 ∧ (40/100 : ℚ) * 3 = 6/5 ∧ (1 : ℚ) ≠ 6/5) ∧
    ((glowDisk 10 1).rad = 1 ∧ (glowDisk 10 1).color.a = 17 ∧
      (40 : ℚ) * (1 - 1/3) ^ 2 = 160/9 ∧ (17 : ℚ) ≠ 160/9) := by
  refine ⟨⟨?_, by norm_num, by norm_num⟩, ⟨rfl, by norm_num⟩,
    ⟨?_, by norm_num, by norm_num⟩, ⟨?_, ?_, by norm_num, by norm_num⟩⟩
  · norm_num [glowRadius, pytrunc]
  · norm_num [centerY, pytrunc]
  · norm_num [glowDisk, glowRadius, pytrunc]
  · norm_num [glowDisk, glowRadius, pytrunc, lerpColor, lerpChan]

/-- C5 (amended).  The radial glow is centered at
`(size // 2, int(0.40 * size))` with radius `int(0.35 * size)`; it is a
list of `(radius + 1) / 2` concentric circles whose `j`-th element has
radius `radius - 2j` (positive, stepping inward by 2 from the outer
radius), alpha `int(40 * (1 - r/radius)^2)` and the integer
interpolation of the script from pink toward violet by `r/radius`. -/
theorem C5_thm : ∀ size : ℕ,
    ((glowCx size : ℕ) : ℤ) = ⌊(size : ℚ) / 2⌋ ∧
    centerY size = ⌊(40/100 : ℚ) * (size : ℚ)⌋ ∧
    glowRadius size = ⌊(35/100 : ℚ) * (size : ℚ)⌋ ∧
    (glowDisks size).length = ((glowRadius size).toNat + 1) / 2 ∧
    (∀ j : ℕ, j < ((glowRadius size).toNat + 1) / 2 →
      1 ≤ glowRadius size - 2 * (j : ℤ) ∧
      glowDisk size j =
        ⟨((size / 2 : ℕ) : ℤ), centerY size, glowRadius size - 2 * (j : ℤ),
         ⟨(((lerpColor (255, 45, 149) (180, 50, 200)
              (((glowRadius size - 2 * (j : ℤ) : ℤ) : ℚ) / (glowRadius size : ℚ))).1 : ℤ) : ℚ),
          (((lerpColor (255, 45, 149) (180, 50, 200)
              (((glowRadius size - 2 * (j : ℤ) : ℤ) : ℚ) / (glowRadius size : ℚ))).2.1 : ℤ) : ℚ),
          (((lerpColor (255, 45, 149) (180, 50, 200)
              (((glowRadius size - 2 * (j : ℤ) : ℤ) : ℚ) / (glowRadius size : ℚ))).2.2 : ℤ) : ℚ),
          ((⌊(40 : ℚ) *
              (1 - ((glowRadius size - 2 * (j : ℤ) : ℤ) : ℚ) / (glowRadius size : ℚ)) ^ 2⌋ :
            ℤ) : ℚ)⟩⟩) := by
  intro size
  refine ⟨?_, ?_, ?_, by simp [glowDisks, ringCount], fun j hj => ⟨?_, ?_⟩⟩
  · rw [glowCx, show ((2:ℚ)) = ((2:ℕ) : ℚ) by norm_num, Rat.floor_natCast_div_natCast]
    push_cast
    rfl
  · rw [centerY, pytrunc_eq_floor (by positivity)]
    congr 1
    ring
  · rw [glowRadius, pytrunc_eq_floor (by positivity)]
    congr 1
    ring
  · have h0 := glowRadius_nonneg size
    have hR : glowRadius size = ((glowRadius size).toNat : ℤ) := (Int.toNat_of_nonneg h0).symm
    rw [hR]
    omega
  · simp only [glowDisk]
    rw [pytrunc_eq_floor (by positivity)]
    rfl

/-- C5 witness: the ring list at size 10, ring 0. -/
theorem C5_witness :
    (glowDisks 10).length = ((glowRadius 10).toNat + 1) / 2 ∧
    (glowDisk 10 0).rad = glowRadius 10 - 2 * ((0 : ℕ) : ℤ) := by
  obtain ⟨_, _, _, h4, h5⟩ := C5_thm 10
  exact ⟨h4, congrArg Disk.rad ((h5 0
    (by rw [show glowRadius 10 = 3 by norm_num [glowRadius, pytrunc]]; decide)).2)⟩

/-- C6 counterexample: the vertical placement of the logo puts its center
at row `int(0.40 * size)`, not at `0.40 × size` exactly: at size 512 the
center lands on 204 while `0.40 × 512 = 204.8`.  The horizontal offset is
the floor `(size - logo_px) // 2`, not `(size - logo_px) / 2` exactly: at
size 7 the code gives 1 while the exact value is 3/2. -/
theorem C6_counterexample :
    (logoPx 512 false = 332 ∧ pasteY 512 false = 38 ∧
      (38 : ℚ) + (332 : ℚ) / 2 = 204 ∧ (40/100 : ℚ) * 512 = 1024/5 ∧
      (204 : ℚ) ≠ 1024/5) ∧
    (logoPx 7 false = 4 ∧ pasteX 7 false = 1 ∧
      ((7 : ℚ) - (4 : ℚ)) / 2 = 3/2 ∧ (1 : ℚ) ≠ 3/2) := by
  refine ⟨⟨?_, ?_, by norm_num, by norm_num, by norm_num⟩,
    ⟨?_, ?_, by norm_num, by norm_num⟩⟩
  · norm_num [logoPx, logoScale, pytrunc]
  · norm_num [pasteY, centerY, logoPx, logoScale, pytrunc, Int.fdiv]
  · norm_num [logoPx, logoScale, pytrunc]
  · norm_num [pasteX, logoPx, logoScale, pytrunc, Int.fdiv]

/-- C6 (amended).  The scale is 0.65 (0.55 when maskable), the logo pixel
size is `int(scale * size)`, the horizontal offset is
`(size - logo_px) // 2` (the floor of `(size - logo_px)/2`, so the logo is
horizontally centered to within half a pixel) and the vertical offset is
`int(0.40 * size) - logo_px // 2` (so the vertical center sits within one
pixel of `0.40 × size`); for size 512 non-maskable, `logo_px = 332` and
the left offset is 90. -/
theorem C6_thm :
    (∀ m : Bool, logoScale m = if m then (55/100 : ℚ) else 65/100) ∧
    (∀ (size : ℕ) (m : Bool), logoPx size m = ⌊logoScale m * (size : ℚ)⌋) ∧
    (∀ (size : ℕ) (m : Bool), pasteX size m = ⌊((size : ℚ) - (logoPx size m : ℚ)) / 2⌋) ∧
    (∀ (size : ℕ) (m : Bool),
      pasteY size m = ⌊(40/100 : ℚ) * (size : ℚ)⌋ - ⌊(logoPx size m : ℚ) / 2⌋) ∧
    (∀ (size : ℕ) (m : Bool),
      |((pasteX size m : ℚ) + (logoPx size m : ℚ) / 2) - (size : ℚ) / 2| ≤ 1/2) ∧
    (∀ (size : ℕ) (m : Bool),
      |((pasteY size m : ℚ) + (logoPx size m : ℚ) / 2) - (40/100 : ℚ) * (size : ℚ)| ≤ 1) ∧
    logoPx 512 false = 332 ∧ pasteX 512 false = 90 := by
  have hscale : ∀ m : Bool, (0 : ℚ) ≤ logoScale m := by
    intro m; cases m <;> norm_num [logoScale]
  have hlogo : ∀ (size : ℕ) (m : Bool), logoPx size m = ⌊logoScale m * (size : ℚ)⌋ := by
    intro size m
    rw [logoPx, pytrunc_eq_floor (mul_nonneg (Nat.cast_nonneg size) (hscale m))]
    congr 1
    ring
  have hx : ∀ (size : ℕ) (m : Bool),
      pasteX size m = ⌊((size : ℚ) - (logoPx size m : ℚ)) / 2⌋ := by
    intro size m
    rw [pasteX, fdiv_two_floor]
    congr 1
    push_cast
    ring
  have hcy : ∀ size : ℕ, centerY size = ⌊(40/100 : ℚ) * (size : ℚ)⌋ := by
    intro size
    rw [centerY, pytrunc_eq_floor (by positivity)]
    congr 1
    ring
  have hy : ∀ (size : ℕ) (m : Bool),
      pasteY size m = ⌊(40/100 : ℚ) * (size : ℚ)⌋ - ⌊(logoPx size m : ℚ) / 2⌋ := by
    intro size m
    rw [pasteY, hcy, fdiv_two_floor]
  refine ⟨fun m => rfl, hlogo, hx, hy, ?_, ?_, ?_, ?_⟩
  · intro size m
    have hsum := Int.fdiv_add_fmod ((size : ℤ) - logoPx size m) 2
    have hm := Int.fmod_eq_emod ((size : ℤ) - logoPx size m) (by norm_num : (0:ℤ) ≤ 2)
    have h0 : 0 ≤ ((size : ℤ) - logoPx size m).fmod 2 := by
      rw [hm]; exact Int.emod_nonneg _ (by norm_num)
    have h1 : ((size : ℤ) - logoPx size m).fmod 2 < 2 := by
      rw [hm]; exact Int.emod_lt_of_pos _ (by norm_num)
    have h0q : (0 : ℚ) ≤ (((size : ℤ) - logoPx size m).fmod 2 : ℚ) := by exact_mod_cast h0
    have h1q : (((size : ℤ) - logoPx size m).fmod 2 : ℚ) ≤ 1 := by
      have : ((size : ℤ) - logoPx size m).fmod 2 ≤ 1 := by omega
      exact_mod_cast this
    have hkey : ((pasteX size m : ℤ) : ℚ) =
        (((size : ℚ) - (logoPx size m : ℚ)) - (((size : ℤ) - logoPx size m).fmod 2 : ℚ)) / 2 := by
      rw [pasteX, eq_div_iff (by norm_num : (2:ℚ) ≠ 0)]
      have := congrArg (fun z : ℤ => (z : ℚ)) hsum
      push_cast at this
      linarith
    rw [hkey, abs_le]
    constructor <;> linarith
  · intro size m
    have hsum := Int.fdiv_add_fmod (logoPx size m) 2
    have hm := Int.fmod_eq_emod (logoPx size m) (by norm_num : (0:ℤ) ≤ 2)
    have h0 : 0 ≤ (logoPx size m).fmod 2 := by
      rw [hm]; exact Int.emod_nonneg _ (by norm_num)
    have h1 : (logoPx size m).fmod 2 < 2 := by
      rw [hm]; exact Int.emod_lt_of_pos _ (by norm_num)
    have h0q : (0 : ℚ) ≤ ((logoPx size m).fmod 2 : ℚ) := by exact_mod_cast h0
    have h1q : ((logoPx size m).fmod 2 : ℚ) ≤ 1 := by
      have : (logoPx size m).fmod 2 ≤ 1 := by omega
      exact_mod_cast this
    have hfd : (((logoPx size m).fdiv 2 : ℤ) : ℚ) =
        ((logoPx size m : ℚ) - ((logoPx size m).fmod 2 : ℚ)) / 2 := by
      rw [eq_div_iff (by norm_num : (2:ℚ) ≠ 0)]
      have := congrArg (fun z : ℤ => (z : ℚ)) hsum
      push_cast at this
      linarith
    have hcyle : ((centerY size : ℤ) : ℚ) ≤ (40/100 : ℚ) * (size : ℚ) := by
      rw [hcy]; exact_mod_cast Int.floor_le _
    have hcygt : (40/100 : ℚ) * (size : ℚ) < ((centerY size : ℤ) : ℚ) + 1 := by
      rw [hcy]; exact Int.lt_floor_add_one _
    have hpy : ((pasteY size m : ℤ) : ℚ) =
        ((centerY size : ℤ) : ℚ) - (((logoPx size m).fdiv 2 : ℤ) : ℚ) := by
      rw [pasteY]; push_cast; ring
    rw [hpy, hfd, abs_le]
    constructor <;> linarith
  · norm_num [logoPx, logoScale, pytrunc]
  · norm_num [pasteX, logoPx, logoScale, pytrunc, Int.fdiv]

/-- A concrete 1-pixel source image used to instantiate the driver. -/
def whiteImg : Img := ⟨1, fun _ _ => ⟨255, 255, 255, 255⟩⟩

/-- C7.  Given a source image and a size-preserving blur, the driver
produces exactly the four outputs `icon-192.png`, `icon-192-maskable.png`,
`icon-512.png`, `icon-512-maskable.png` in order, with no error, and each
is an RGB image (an `Img3` carries no alpha channel) of the corresponding
square resolution. -/
theorem C7_thm : ∀ (blur resample : ℕ → Img → Img) (src : Img), sizePreserving blur →
    ∃ a b c d : Img3,
      mainRun blur resample (some src) =
        ([("icon-192.png", a), ("icon-192-maskable.png", b),
          ("icon-512.png", c), ("icon-512-maskable.png", d)], none) ∧
      a.size = 192 ∧ b.size = 192 ∧ c.size = 512 ∧ d.size = 512 := by
  intro blur resample src hb
  obtain ⟨o1, e1, s1⟩ := createIcon_spec blur resample hb src 192 false
  obtain ⟨o2, e2, s2⟩ := createIcon_spec blur resample hb src 192 true
  obtain ⟨o3, e3, s3⟩ := createIcon_spec blur resample hb src 512 false
  obtain ⟨o4, e4, s4⟩ := createIcon_spec blur resample hb src 512 true
  refine ⟨o1, o2, o3, o4, ?_, s1, s2, s3, s4⟩
  simp only [mainRun, iconSpecs, runSpecs, createIconAt, Option.some_bind, e1, e2, e3, e4]
  rfl

/-- C7 witness: the driver on a concrete source image with the identity in
place of the blur and the resampler. -/
theorem C7_witness :
    ((mainRun (fun _ i => i) (fun _ i => i) (some whiteImg)).1.map Prod.fst =
      ["icon-192.png", "icon-192-maskable.png", "icon-512.png", "icon-512-maskable.png"]) ∧
    ((mainRun (fun _ i => i) (fun _ i => i) (some whiteImg)).1.map (fun p => p.2.size) =
      [192, 192, 512, 512]) ∧
    (mainRun (fun _ i => i) (fun _ i => i) (some whiteImg)).2 = none := by
  obtain ⟨a, b, c, d, h, sa, sb, sc, sd⟩ :=
    C7_thm (fun _ i => i) (fun _ i => i) whiteImg (fun _ _ => rfl)
  rw [h]
  simp [sa, sb, sc, sd]

/-- C8.  The pipeline is deterministic: the output of the driver is a
function of the source image content alone — two source images of the same size and
pixel contents yield identical outputs for every blur and resampler. -/
theorem C8_thm : ∀ (blur resample : ℕ → Img → Img) (s1 s2 : Img),
    s1.size = s2.size → s1.px = s2.px →
    mainRun blur resample (some s1) = mainRun blur resample (some s2) := by
  intro blur resample s1 s2 hsz hpx
  have h : s1 = s2 := by
    cases s1
    cases s2
    simp_all
  rw [h]

/-- C8 witness: two runs on the same concrete source image agree. -/
theorem C8_witness :
    mainRun (fun _ i => i) (fun _ i => i) (some whiteImg) =
      mainRun (fun _ i => i) (fun _ i => i) (some whiteImg) :=
  C8_thm (fun _ i => i) (fun _ i => i) whiteImg whiteImg rfl rfl

/-- C9.  When the source image cannot be read, the logo extraction of the
first icon fails, the failure aborts the whole run, and no output file is
produced: the driver returns the empty output list together with the
error. -/
theorem C9_thm : ∀ blur resample : ℕ → Img → Img,
    mainRun blur resample none = ([], some ()) := by
  intro blur resample
  rfl

lemma glowMargin_nonneg (size : ℕ) : 0 ≤ glowMargin size := by
  rw [glowMargin, pytrunc_eq_floor (by positivity)]
  exact Int.floor_nonneg.mpr (by positivity)

lemma glowMargin_double_le (size : ℕ) : 2 * glowMargin size ≤ (size : ℤ) := by
  have h1 : ((glowMargin size : ℤ) : ℚ) ≤ (size : ℚ) * (5/100) := by
    rw [glowMargin, pytrunc_eq_floor (by positivity)]
    exact Int.floor_le _
  have hs : (0 : ℚ) ≤ (size : ℚ) := Nat.cast_nonneg size
  have h2 : ((2 * glowMargin size : ℤ) : ℚ) ≤ ((size : ℤ) : ℚ) := by
    push_cast at h1 ⊢
    linarith
  exact_mod_cast h2

/-- C10.  The horizon glow band consists of exactly nine lines, at
vertical offsets -4..4 from the horizon, each spanning horizontally only
from `x = int(0.05 * size)` to `x = size - int(0.05 * size)`; outside that
horizontal span the glow layer is untouched (transparent) before
blurring. -/
theorem C10_thm : ∀ size : ℕ,
    (horizonGlowLines size).length = 9 ∧
    glowMargin size = ⌊(5/100 : ℚ) * (size : ℚ)⌋ ∧
    (∀ o : ℤ, o ∈ glowOffsets →
      (glowLine size o).p0 = (glowMargin size, horizonY size + o) ∧
      (glowLine size o).p1 = ((size : ℤ) - glowMargin size, horizonY size + o)) ∧
    (∀ x y : ℕ, ((x : ℤ) < glowMargin size ∨ (size : ℤ) - glowMargin size < (x : ℤ)) →
      (horizonGlowLayer size).px x y = transparent) := by
  intro size
  refine ⟨by simp [horizonGlowLines, glowOffsets], ?_, fun o _ => ⟨rfl, rfl⟩, ?_⟩
  · rw [glowMargin, pytrunc_eq_floor (by positivity)]
    congr 1
    ring
  · intro x y hx
    have hmm : glowMargin size ≤ (size : ℤ) - glowMargin size := by
      have := glowMargin_double_le size
      omega
    have hnone : (horizonGlowLines size).reverse.find?
        (fun l => coversLine l (x : ℤ) (y : ℤ)) = none := by
      rw [List.find?_eq_none]
      intro l hl
      rw [List.mem_reverse, horizonGlowLines, List.mem_map] at hl
      obtain ⟨o, _, rfl⟩ := hl
      simp only [coversLine, glowLine, if_true, decide_eq_true_eq]
      rintro ⟨-, hlo, hhi⟩
      rw [min_eq_left hmm] at hlo
      rw [max_eq_right hmm] at hhi
      omega
    simp [horizonGlowLayer, rasterLines, hnone]

/-- C10 witness: the glow band at size 192 and its first line. -/
theorem C10_witness :
    (horizonGlowLines 192).length = 9 ∧
    (glowLine 192 (-4)).p0 = (glowMargin 192, horizonY 192 + (-4)) ∧
    (horizonGlowLayer 192).px 0 0 = transparent := by
  obtain ⟨h1, _, h3, h4⟩ := C10_thm 192
  refine ⟨h1, (h3 (-4) (by norm_num [glowOffsets])).1, h4 0 0 (Or.inl ?_)⟩
  norm_num [glowMargin, pytrunc]

end Springa
